import Mathlib

/-!
Shallow embedding of `nsqd/stats.go` (monzo/nsq): the stats-snapshot
aggregator `GetStats`, the per-entity stats constructors, the name-based
ordering utilities, and the memory/GC sampler `getMemStats`, together with
a model of Go `encoding/json` marshalling of the produced DTOs as
determined by the struct tags in the source.

Broker-side state (topics, channels, clients) is modelled as lists: a Go
map is embedded as the list of its entries in iteration order, so that
properties independent of iteration order can be stated as invariance
under permutation of these lists.  Machine integers carry no arithmetic
here beyond the `/ 1000` unit conversion, so `int64/int32` become `Int`
and `uint64/uint32` become `Nat`.
-/

namespace NSQDStats

/-- Modelled from the spec: `*quantile.Result` (package `internal/quantile`) is
not under `src/`; the spec treats it as an opaque mergeable snapshot, so it is
embedded as an opaque payload whose JSON form is a single number, with `none`
standing for a nil pointer (JSON `null`). -/
structure QuantileResult where
  val : Int
deriving DecidableEq, Repr

/-- `ClientStats` from `stats.go` lines 69-94. -/
structure ClientStats where
  ClientID : String
  Hostname : String
  Version : String
  RemoteAddress : String
  State : Int
  ReadyCount : Int
  InFlightCount : Int
  MessageCount : Nat
  FinishCount : Nat
  RequeueCount : Nat
  ConnectTime : Int
  SampleRate : Int
  Deflate : Bool
  Snappy : Bool
  UserAgent : String
  Authed : Bool
  AuthIdentity : String
  AuthIdentityURL : String
  TLS : Bool
  CipherSuite : String
  TLSVersion : String
  TLSNegotiatedProtocol : String
  TLSNegotiatedProtocolIsMutual : Bool
deriving DecidableEq, Repr

/-- `ChannelStats` from `stats.go` lines 37-50. -/
structure ChannelStats where
  ChannelName : String
  Depth : Int
  BackendDepth : Int
  InFlightCount : Nat
  DeferredCount : Nat
  MessageCount : Nat
  RequeueCount : Nat
  TimeoutCount : Nat
  Clients : List ClientStats
  Paused : Bool
  E2eProcessingLatency : Option QuantileResult
deriving DecidableEq, Repr

/-- `TopicStats` from `stats.go` lines 13-22. -/
structure TopicStats where
  TopicName : String
  Channels : List ChannelStats
  Depth : Int
  BackendDepth : Int
  MessageCount : Nat
  Paused : Bool
  E2eProcessingLatency : Option QuantileResult
deriving DecidableEq, Repr

/-- A live client connection; `client.Stats()` (external to this file) returns
its self-contained `ClientStats` snapshot, so the client is embedded as that
snapshot. -/
structure Client where
  stats : ClientStats
deriving DecidableEq, Repr

/-- A broker channel as `NewChannelStats` and `GetStats` read it: its name,
the client map (`c.clients`, embedded in iteration order), and the values its
accessors / atomic counters return at snapshot time. -/
structure Channel where
  name : String
  clients : List Client
  depth : Int
  backendDepth : Int
  inFlightCount : Nat
  deferredCount : Nat
  messageCount : Nat
  requeueCount : Nat
  timeoutCount : Nat
  paused : Bool
  e2eProcessingLatencyResult : Option QuantileResult
deriving DecidableEq, Repr

/-- A broker topic as `NewTopicStats` and `GetStats` read it: its name, the
channel map (`t.channelMap`, embedded in iteration order), and the values its
accessors return at snapshot time. -/
structure Topic where
  name : String
  channelMap : List Channel
  depth : Int
  backendDepth : Int
  messageCount : Nat
  paused : Bool
  aggregateE2eResult : Option QuantileResult
deriving DecidableEq, Repr

/-- The broker: `n.topicMap`, embedded in iteration order. -/
structure NSQD where
  topicMap : List Topic
deriving DecidableEq, Repr

/-- `NewTopicStats` (`stats.go` lines 24-35). -/
def NewTopicStats (t : Topic) (channels : List ChannelStats) : TopicStats :=
  { TopicName := t.name
    Channels := channels
    Depth := t.depth
    BackendDepth := t.backendDepth
    MessageCount := t.messageCount
    Paused := t.paused
    E2eProcessingLatency := t.aggregateE2eResult }

/-- `NewChannelStats` (`stats.go` lines 52-67). -/
def NewChannelStats (c : Channel) (clients : List ClientStats) : ChannelStats :=
  { ChannelName := c.name
    Depth := c.depth
    BackendDepth := c.backendDepth
    InFlightCount := c.inFlightCount
    DeferredCount := c.deferredCount
    MessageCount := c.messageCount
    RequeueCount := c.requeueCount
    TimeoutCount := c.timeoutCount
    Clients := clients
    Paused := c.paused
    E2eProcessingLatency := c.e2eProcessingLatencyResult }

/-- Lexicographic strict comparison of character lists: the order Go's `<`
computes byte-wise on (valid UTF-8) string values, on the code-point lists
that embed them.  UTF-8 byte order and code-point order agree. -/
def charsLt : List Char → List Char → Bool
  | _, [] => false
  | [], _ :: _ => true
  | a :: as, b :: bs =>
    if a < b then true else if b < a then false else charsLt as bs

theorem charsLt_asymm :
    ∀ (as bs : List Char), charsLt as bs = true → charsLt bs as = false
  | _, [], h => by simp [charsLt] at h
  | [], _ :: _, _ => by simp [charsLt]
  | a :: as, b :: bs, h => by
    simp only [charsLt] at h ⊢
    by_cases h1 : a < b
    · simp [h1, lt_asymm h1]
    · by_cases h2 : b < a
      · simp [h1, h2] at h
      · simp only [h1, h2, if_false] at h ⊢
        exact charsLt_asymm as bs h

theorem charsLt_conn :
    ∀ (as bs : List Char), charsLt as bs = false → charsLt bs as = false →
      as = bs
  | [], [], _, _ => rfl
  | [], _ :: _, h1, _ => by simp [charsLt] at h1
  | _ :: _, [], _, h2 => by simp [charsLt] at h2
  | a :: as, b :: bs, h1, h2 => by
    simp only [charsLt] at h1 h2
    by_cases hab : a < b
    · simp [hab] at h1
    · by_cases hba : b < a
      · simp [hba] at h2
      · have hb : a = b := le_antisymm (not_lt.mp hba) (not_lt.mp hab)
        subst hb
        simp only [lt_irrefl, if_false] at h1 h2
        rw [charsLt_conn as bs h1 h2]

theorem charsLt_trans :
    ∀ (as bs cs : List Char), charsLt as bs = true → charsLt bs cs = true →
      charsLt as cs = true
  | _, [], _, h1, _ => by simp [charsLt] at h1
  | _, _ :: _, [], _, h2 => by simp [charsLt] at h2
  | [], _ :: _, _ :: _, _, _ => by simp [charsLt]
  | a :: as, b :: bs, c :: cs, h1, h2 => by
    simp only [charsLt] at h1 h2 ⊢
    by_cases hab : a < b
    · by_cases hbc : b < c
      · simp [lt_trans hab hbc]
      · by_cases hcb : c < b
        · simp [hbc, hcb] at h2
        · have hb : b = c := le_antisymm (not_lt.mp hcb) (not_lt.mp hbc)
          subst hb
          simp [hab]
    · by_cases hba : b < a
      · simp [hab, hba] at h1
      · have hb : a = b := le_antisymm (not_lt.mp hba) (not_lt.mp hab)
        subst hb
        simp only [lt_irrefl, if_false] at h1 h2 ⊢
        by_cases hac : a < c
        · simp [hac]
        · simp only [hac, if_false] at h2 ⊢
          by_cases hca : c < a
          · simp [hca] at h2
          · simp only [hca, if_false] at h2 ⊢
            exact charsLt_trans as bs cs h1 h2

/-- Go's strict byte-wise `<` on string values. -/
def goStrLt (a b : String) : Prop :=
  charsLt a.data b.data = true

/-- The complement order `!(b < a)` that `sort.Sort` establishes on its
output for a `Less` comparing with Go's `<`. -/
def goStrLe (a b : String) : Prop :=
  charsLt b.data a.data = false

theorem string_eq_of_data_eq {a b : String} (h : a.data = b.data) : a = b := by
  cases a
  cases b
  exact congrArg String.mk (by simpa using h)

theorem goStrLe_total (a b : String) : goStrLe a b ∨ goStrLe b a := by
  unfold goStrLe
  cases h : charsLt b.data a.data with
  | false => exact Or.inl rfl
  | true => exact Or.inr (charsLt_asymm _ _ h)

theorem goStrLe_trans {a b c : String} (h1 : goStrLe a b) (h2 : goStrLe b c) :
    goStrLe a c := by
  unfold goStrLe at h1 h2 ⊢
  cases hca : charsLt c.data a.data with
  | false => rfl
  | true =>
    exfalso
    cases hbc : charsLt b.data c.data with
    | true =>
      have hba := charsLt_trans _ _ _ hbc hca
      simp [h1] at hba
    | false =>
      have hb : b.data = c.data := charsLt_conn _ _ hbc h2
      rw [← hb] at hca
      simp [h1] at hca

theorem goStrLt_of_goStrLe_of_ne {a b : String} (h1 : goStrLe a b)
    (h2 : a ≠ b) : goStrLt a b := by
  unfold goStrLe at h1
  unfold goStrLt
  cases h : charsLt a.data b.data with
  | true => rfl
  | false =>
    exact absurd (string_eq_of_data_eq (charsLt_conn _ _ h h1)) h2

theorem goStrLt_asymm {a b : String} (h1 : goStrLt a b) : ¬ goStrLt b a := by
  unfold goStrLt at h1 ⊢
  rw [charsLt_asymm _ _ h1]
  simp

/-- The comparator of `TopicStatsByTopicName.Less` (`stats.go` lines 116-118),
in the non-strict form `sort.Sort` establishes on the output. -/
def topicStatsLe (a b : TopicStats) : Prop :=
  goStrLe a.TopicName b.TopicName

/-- The strict comparator `TopicStatsByTopicName.Less` itself. -/
def topicStatsLt (a b : TopicStats) : Prop :=
  goStrLt a.TopicName b.TopicName

/-- The comparator of `ChannelStatsByChannelName.Less` (`stats.go` lines
140-142), in non-strict form. -/
def channelStatsLe (a b : ChannelStats) : Prop :=
  goStrLe a.ChannelName b.ChannelName

/-- The strict comparator `ChannelStatsByChannelName.Less` itself. -/
def channelStatsLt (a b : ChannelStats) : Prop :=
  goStrLt a.ChannelName b.ChannelName

instance : DecidableRel goStrLt :=
  fun a b => inferInstanceAs (Decidable (charsLt a.data b.data = true))

instance : DecidableRel goStrLe :=
  fun a b => inferInstanceAs (Decidable (charsLt b.data a.data = false))

instance : DecidableRel topicStatsLe :=
  fun a b => inferInstanceAs (Decidable (goStrLe a.TopicName b.TopicName))

instance : DecidableRel channelStatsLe :=
  fun a b => inferInstanceAs (Decidable (goStrLe a.ChannelName b.ChannelName))

instance : IsTotal TopicStats topicStatsLe :=
  ⟨fun a b => goStrLe_total a.TopicName b.TopicName⟩

instance : IsTrans TopicStats topicStatsLe :=
  ⟨fun _ _ _ h1 h2 => goStrLe_trans h1 h2⟩

instance : IsTotal ChannelStats channelStatsLe :=
  ⟨fun a b => goStrLe_total a.ChannelName b.ChannelName⟩

instance : IsTrans ChannelStats channelStatsLe :=
  ⟨fun _ _ _ h1 h2 => goStrLe_trans h1 h2⟩

/-- Go map lookup `t.channelMap[channel]` on the embedded iteration-order
list: the (unique, for genuine map states) entry with the given name. -/
def lookupChannel (channelMap : List Channel) (channel : String) : Option Channel :=
  channelMap.find? (fun c => c.name == channel)

/-- Go map lookup `n.topicMap[topic]`. -/
def lookupTopic (topicMap : List Topic) (topic : String) : Option Topic :=
  topicMap.find? (fun t => t.name == topic)

/-- The client-collection loop of the per-channel goroutine (`stats.go` lines
199-202): each client's snapshot, in client-map iteration order, never
sorted. -/
def collectClients (c : Channel) : List ClientStats :=
  c.clients.map Client.stats

/-- The body of the per-channel goroutine (`stats.go` lines 195-212): it
always contributes exactly one `ChannelStats`. -/
def channelCollector (c : Channel) : ChannelStats :=
  NewChannelStats c (collectClients c)

/-- The channel-filter step of the per-topic goroutine (`stats.go` lines
174-186): empty filter selects the whole channel map; otherwise the named
channel if present, and `none` (early `return`, contributing nothing)
otherwise. -/
def selectChannels (t : Topic) (channel : String) : Option (List Channel) :=
  if channel = "" then some t.channelMap
  else
    match lookupChannel t.channelMap channel with
    | some val => some [val]
    | none => none

/-- The body of the per-topic goroutine (`stats.go` lines 169-224): select
channels, collect each, sort ascending by channel name, build one
`TopicStats`; `none` when the channel filter misses. -/
def topicCollector (channel : String) (t : Topic) : Option TopicStats :=
  match selectChannels t channel with
  | none => none
  | some realChannels =>
    some (NewTopicStats t
      ((realChannels.map channelCollector).insertionSort channelStatsLe))

/-- The topic-filter step of `GetStats` (`stats.go` lines 149-159): empty
filter selects the whole topic map; otherwise the named topic if present, and
`none` (early `return []`) otherwise. -/
def selectTopics (n : NSQD) (topic : String) : Option (List Topic) :=
  if topic = "" then some n.topicMap
  else
    match lookupTopic n.topicMap topic with
    | some val => some [val]
    | none => none

/-- The per-topic fan-out and final sort of `GetStats` (`stats.go` lines
164-227) applied to the selected topics. -/
def collectTopics (channel : String) (realTopics : List Topic) : List TopicStats :=
  (realTopics.filterMap (topicCollector channel)).insertionSort topicStatsLe

/-- `GetStats` (`stats.go` lines 144-231).  The concurrent goroutines append
their results under a mutex in scheduler order; the baseline embedding uses
iteration order for that accumulation, and invariance under any other
accumulation order is proved separately. -/
def GetStats (n : NSQD) (topic channel : String) : List TopicStats :=
  match selectTopics n topic with
  | none => []
  | some realTopics => collectTopics channel realTopics

/-- `memStats` from `stats.go` lines 233-243. -/
structure memStats where
  HeapObjects : Nat
  HeapIdleBytes : Nat
  HeapInUseBytes : Nat
  HeapReleasedBytes : Nat
  GCPauseUsec100 : Nat
  GCPauseUsec99 : Nat
  GCPauseUsec95 : Nat
  NextGCBytes : Nat
  GCTotalRuns : Nat
deriving DecidableEq, Repr

/-- The fields of `runtime.MemStats` read by `getMemStats`: heap counters and
the GC pause buffer `PauseNs` (a 256-entry circular buffer in the runtime;
when `NumGC <= len(PauseNs)` its first `NumGC` entries are the recorded
pauses). -/
structure RuntimeMemStats where
  HeapObjects : Nat
  HeapIdle : Nat
  HeapInuse : Nat
  HeapReleased : Nat
  NextGC : Nat
  NumGC : Nat
  PauseNs : List Nat
deriving DecidableEq, Repr

/-- Modelled from the spec: `percentile` is called at `stats.go` lines 263-265
but defined outside `src/`; the spec gives the nearest-rank rule
`index = ceil(p/100 * n) - 1`, clamped into `[0, n-1]`, with result `0` when
`n = 0`.  For the integer percentiles used at the call sites (100, 99, 95)
`ceil(p*n/100)` is computed exactly as `(p*n + 99) / 100` in `Nat`. -/
def percentile (p : Nat) (arr : List Nat) (n : Nat) : Nat :=
  if n = 0 then 0
  else arr.getD (min ((p * n + 99) / 100 - 1) (n - 1)) 0

/-- Modelled from the spec: `Uint64Slice`'s sort order is defined outside
`src/`; the spec says the pause sample is sorted ascending. -/
def uint64SliceSort (l : List Nat) : List Nat :=
  l.insertionSort (fun a b => a ≤ b)

/-- `getMemStats` (`stats.go` lines 245-270): truncate the pause buffer to
`min(len(PauseNs), NumGC)`, sort it, take nearest-rank percentiles 100/99/95
and convert nanoseconds to microseconds by integer division. -/
def getMemStats (ms : RuntimeMemStats) : memStats :=
  let length := min ms.PauseNs.length ms.NumGC
  let gcPauses := uint64SliceSort (ms.PauseNs.take length)
  { HeapObjects := ms.HeapObjects
    HeapIdleBytes := ms.HeapIdle
    HeapInUseBytes := ms.HeapInuse
    HeapReleasedBytes := ms.HeapReleased
    GCPauseUsec100 := percentile 100 gcPauses gcPauses.length / 1000
    GCPauseUsec99 := percentile 99 gcPauses gcPauses.length / 1000
    GCPauseUsec95 := percentile 95 gcPauses gcPauses.length / 1000
    NextGCBytes := ms.NextGC
    GCTotalRuns := ms.NumGC }

/-- JSON values, as produced by Go `encoding/json` for the DTOs of
`stats.go`.  Integer fields marshal to exact decimal numerals, embedded here
as `Int`. -/
inductive Json where
  | null : Json
  | bool : Bool → Json
  | num : Int → Json
  | str : String → Json
  | arr : List Json → Json
  | obj : List (String × Json) → Json
deriving Repr

/-- The keys of a JSON object, in emission order. -/
def Json.fieldNames : Json → List String
  | Json.obj fields => fields.map Prod.fst
  | _ => []

/-- Marshalling of the `*quantile.Result` field: a nil pointer marshals to
`null`, a non-nil one to its (opaque) payload. -/
def encodeQuantile : Option QuantileResult → Json
  | none => Json.null
  | some r => Json.num r.val

/-- Go `encoding/json` marshalling of `ClientStats` per the struct tags at
`stats.go` lines 69-94: fields in declaration order; `authed`,
`auth_identity` and `auth_identity_url` carry `omitempty` and are dropped at
their zero value. -/
def ClientStats.encode (c : ClientStats) : Json :=
  Json.obj
    ([("client_id", Json.str c.ClientID),
      ("hostname", Json.str c.Hostname),
      ("version", Json.str c.Version),
      ("remote_address", Json.str c.RemoteAddress),
      ("state", Json.num c.State),
      ("ready_count", Json.num c.ReadyCount),
      ("in_flight_count", Json.num c.InFlightCount),
      ("message_count", Json.num (c.MessageCount : Int)),
      ("finish_count", Json.num (c.FinishCount : Int)),
      ("requeue_count", Json.num (c.RequeueCount : Int)),
      ("connect_ts", Json.num c.ConnectTime),
      ("sample_rate", Json.num c.SampleRate),
      ("deflate", Json.bool c.Deflate),
      ("snappy", Json.bool c.Snappy),
      ("user_agent", Json.str c.UserAgent)]
     ++ (if c.Authed = true then [("authed", Json.bool c.Authed)] else [])
     ++ (if c.AuthIdentity = "" then []
         else [("auth_identity", Json.str c.AuthIdentity)])
     ++ (if c.AuthIdentityURL = "" then []
         else [("auth_identity_url", Json.str c.AuthIdentityURL)])
     ++ [("tls", Json.bool c.TLS),
      ("tls_cipher_suite", Json.str c.CipherSuite),
      ("tls_version", Json.str c.TLSVersion),
      ("tls_negotiated_protocol", Json.str c.TLSNegotiatedProtocol),
      ("tls_negotiated_protocol_is_mutual",
        Json.bool c.TLSNegotiatedProtocolIsMutual)])

/-- Go `encoding/json` marshalling of `ChannelStats` per the struct tags at
`stats.go` lines 37-50 (no `omitempty`). -/
def ChannelStats.encode (s : ChannelStats) : Json :=
  Json.obj
    [("channel_name", Json.str s.ChannelName),
     ("depth", Json.num s.Depth),
     ("backend_depth", Json.num s.BackendDepth),
     ("in_flight_count", Json.num (s.InFlightCount : Int)),
     ("deferred_count", Json.num (s.DeferredCount : Int)),
     ("message_count", Json.num (s.MessageCount : Int)),
     ("requeue_count", Json.num (s.RequeueCount : Int)),
     ("timeout_count", Json.num (s.TimeoutCount : Int)),
     ("clients", Json.arr (s.Clients.map ClientStats.encode)),
     ("paused", Json.bool s.Paused),
     ("e2e_processing_latency", encodeQuantile s.E2eProcessingLatency)]

/-- Go `encoding/json` marshalling of `TopicStats` per the struct tags at
`stats.go` lines 13-22 (no `omitempty`). -/
def TopicStats.encode (s : TopicStats) : Json :=
  Json.obj
    [("topic_name", Json.str s.TopicName),
     ("channels", Json.arr (s.Channels.map ChannelStats.encode)),
     ("depth", Json.num s.Depth),
     ("backend_depth", Json.num s.BackendDepth),
     ("message_count", Json.num (s.MessageCount : Int)),
     ("paused", Json.bool s.Paused),
     ("e2e_processing_latency", encodeQuantile s.E2eProcessingLatency)]

/-- Go `encoding/json` marshalling of `memStats` per the struct tags at
`stats.go` lines 233-243 (no `omitempty`). -/
def memStats.encode (m : memStats) : Json :=
  Json.obj
    [("heap_objects", Json.num (m.HeapObjects : Int)),
     ("heap_idle_bytes", Json.num (m.HeapIdleBytes : Int)),
     ("heap_in_use_bytes", Json.num (m.HeapInUseBytes : Int)),
     ("heap_released_bytes", Json.num (m.HeapReleasedBytes : Int)),
     ("gc_pause_usec_100", Json.num (m.GCPauseUsec100 : Int)),
     ("gc_pause_usec_99", Json.num (m.GCPauseUsec99 : Int)),
     ("gc_pause_usec_95", Json.num (m.GCPauseUsec95 : Int)),
     ("next_gc_bytes", Json.num (m.NextGCBytes : Int)),
     ("gc_total_runs", Json.num (m.GCTotalRuns : Int))]

/-- Unmarshalling helper: first binding of a key in a JSON object, as Go's
decoder resolves field names. -/
def jsonLookup : List (String × Json) → String → Option Json
  | [], _ => none
  | (k, v) :: rest, key => if k = key then some v else jsonLookup rest key

/-- Unmarshal a string-typed struct field: an absent field keeps the zero
value `""`; a type mismatch is a decode error. -/
def asStr (fields : List (String × Json)) (key : String) : Option String :=
  match jsonLookup fields key with
  | none => some ""
  | some (Json.str s) => some s
  | some _ => none

/-- Unmarshal a signed-integer struct field; absent keeps `0`. -/
def asInt (fields : List (String × Json)) (key : String) : Option Int :=
  match jsonLookup fields key with
  | none => some 0
  | some (Json.num v) => some v
  | some _ => none

/-- Unmarshal an unsigned-integer struct field; absent keeps `0`; a negative
numeral is a decode error, as in Go. -/
def asNat (fields : List (String × Json)) (key : String) : Option Nat :=
  match jsonLookup fields key with
  | none => some 0
  | some (Json.num (Int.ofNat v)) => some v
  | some _ => none

/-- Unmarshal a boolean struct field; absent keeps `false`. -/
def asBool (fields : List (String × Json)) (key : String) : Option Bool :=
  match jsonLookup fields key with
  | none => some false
  | some (Json.bool b) => some b
  | some _ => none

/-- Unmarshal the `*quantile.Result` field: absent or `null` keeps the nil
pointer. -/
def asQuantile (fields : List (String × Json)) (key : String) :
    Option (Option QuantileResult) :=
  match jsonLookup fields key with
  | none => some none
  | some Json.null => some none
  | some (Json.num v) => some (some ⟨v⟩)
  | some _ => none

/-- Unmarshal a JSON array element-wise; any element failure fails the
whole decode. -/
def decodeArray {α : Type} (dec : Json → Option α) : List Json → Option (List α)
  | [] => some []
  | j :: js =>
    match dec j, decodeArray dec js with
    | some a, some l => some (a :: l)
    | _, _ => none

/-- Unmarshal a slice-typed struct field; absent or `null` keeps the nil
slice. -/
def asArray {α : Type} (dec : Json → Option α) (fields : List (String × Json))
    (key : String) : Option (List α) :=
  match jsonLookup fields key with
  | none => some []
  | some Json.null => some []
  | some (Json.arr js) => decodeArray dec js
  | some _ => none

/-- The identity-related fields of `ClientStats`, unmarshalled together. -/
def decodeClientIdent (fields : List (String × Json)) :
    Option (String × String × String × String) :=
  match asStr fields "client_id", asStr fields "hostname",
      asStr fields "version", asStr fields "remote_address" with
  | some clientID, some hostname, some version, some remoteAddress =>
    some (clientID, hostname, version, remoteAddress)
  | _, _, _, _ => none

/-- The counter fields of `ClientStats`, unmarshalled together. -/
def decodeClientCounters (fields : List (String × Json)) :
    Option (Int × Int × Int × Nat × Nat × Nat × Int × Int) :=
  match asInt fields "state", asInt fields "ready_count",
      asInt fields "in_flight_count", asNat fields "message_count",
      asNat fields "finish_count", asNat fields "requeue_count",
      asInt fields "connect_ts", asInt fields "sample_rate" with
  | some state, some readyCount, some inFlightCount, some messageCount,
      some finishCount, some requeueCount, some connectTime, some sampleRate =>
    some (state, readyCount, inFlightCount, messageCount, finishCount,
      requeueCount, connectTime, sampleRate)
  | _, _, _, _, _, _, _, _ => none

/-- The transport/auth fields of `ClientStats`, unmarshalled together. -/
def decodeClientTransport (fields : List (String × Json)) :
    Option (Bool × Bool × String × Bool × String × String) :=
  match asBool fields "deflate", asBool fields "snappy",
      asStr fields "user_agent", asBool fields "authed",
      asStr fields "auth_identity", asStr fields "auth_identity_url" with
  | some deflate, some snappy, some userAgent, some authed,
      some authIdentity, some authIdentityURL =>
    some (deflate, snappy, userAgent, authed, authIdentity, authIdentityURL)
  | _, _, _, _, _, _ => none

/-- The TLS fields of `ClientStats`, unmarshalled together. -/
def decodeClientTLSInfo (fields : List (String × Json)) :
    Option (Bool × String × String × String × Bool) :=
  match asBool fields "tls", asStr fields "tls_cipher_suite",
      asStr fields "tls_version", asStr fields "tls_negotiated_protocol",
      asBool fields "tls_negotiated_protocol_is_mutual" with
  | some tls, some cipherSuite, some tlsVersion, some tlsNegotiatedProtocol,
      some tlsMutual =>
    some (tls, cipherSuite, tlsVersion, tlsNegotiatedProtocol, tlsMutual)
  | _, _, _, _, _ => none

/-- Go `encoding/json` unmarshalling into `ClientStats`. -/
def decodeClientStats : Json → Option ClientStats
  | Json.obj fields =>
    match decodeClientIdent fields, decodeClientCounters fields,
        decodeClientTransport fields, decodeClientTLSInfo fields with
    | some (clientID, hostname, version, remoteAddress),
        some (state, readyCount, inFlightCount, messageCount, finishCount,
          requeueCount, connectTime, sampleRate),
        some (deflate, snappy, userAgent, authed, authIdentity,
          authIdentityURL),
        some (tls, cipherSuite, tlsVersion, tlsNegotiatedProtocol,
          tlsMutual) =>
      some
        { ClientID := clientID
          Hostname := hostname
          Version := version
          RemoteAddress := remoteAddress
          State := state
          ReadyCount := readyCount
          InFlightCount := inFlightCount
          MessageCount := messageCount
          FinishCount := finishCount
          RequeueCount := requeueCount
          ConnectTime := connectTime
          SampleRate := sampleRate
          Deflate := deflate
          Snappy := snappy
          UserAgent := userAgent
          Authed := authed
          AuthIdentity := authIdentity
          AuthIdentityURL := authIdentityURL
          TLS := tls
          CipherSuite := cipherSuite
          TLSVersion := tlsVersion
          TLSNegotiatedProtocol := tlsNegotiatedProtocol
          TLSNegotiatedProtocolIsMutual := tlsMutual }
    | _, _, _, _ => none
  | _ => none

/-- The counter fields of `ChannelStats`, unmarshalled together. -/
def decodeChannelCounters (fields : List (String × Json)) :
    Option (Int × Int × Nat × Nat × Nat × Nat × Nat) :=
  match asInt fields "depth", asInt fields "backend_depth",
      asNat fields "in_flight_count", asNat fields "deferred_count",
      asNat fields "message_count", asNat fields "requeue_count",
      asNat fields "timeout_count" with
  | some depth, some backendDepth, some inFlightCount, some deferredCount,
      some messageCount, some requeueCount, some timeoutCount =>
    some (depth, backendDepth, inFlightCount, deferredCount, messageCount,
      requeueCount, timeoutCount)
  | _, _, _, _, _, _, _ => none

/-- Go `encoding/json` unmarshalling into `ChannelStats`. -/
def decodeChannelStats : Json → Option ChannelStats
  | Json.obj fields =>
    match asStr fields "channel_name", decodeChannelCounters fields,
        asArray decodeClientStats fields "clients", asBool fields "paused",
        asQuantile fields "e2e_processing_latency" with
    | some channelName,
        some (depth, backendDepth, inFlightCount, deferredCount,
          messageCount, requeueCount, timeoutCount),
        some clients, some paused, some e2e =>
      some
        { ChannelName := channelName
          Depth := depth
          BackendDepth := backendDepth
          InFlightCount := inFlightCount
          DeferredCount := deferredCount
          MessageCount := messageCount
          RequeueCount := requeueCount
          TimeoutCount := timeoutCount
          Clients := clients
          Paused := paused
          E2eProcessingLatency := e2e }
    | _, _, _, _, _ => none
  | _ => none

/-- Go `encoding/json` unmarshalling into `TopicStats`. -/
def decodeTopicStats : Json → Option TopicStats
  | Json.obj fields =>
    match asStr fields "topic_name",
        asArray decodeChannelStats fields "channels", asInt fields "depth",
        asInt fields "backend_depth", asNat fields "message_count",
        asBool fields "paused", asQuantile fields "e2e_processing_latency" with
    | some topicName, some channels, some depth, some backendDepth,
        some messageCount, some paused, some e2e =>
      some
        { TopicName := topicName
          Channels := channels
          Depth := depth
          BackendDepth := backendDepth
          MessageCount := messageCount
          Paused := paused
          E2eProcessingLatency := e2e }
    | _, _, _, _, _, _, _ => none
  | _ => none

/-- Go `encoding/json` unmarshalling into `memStats`. -/
def decodeMemStats : Json → Option memStats
  | Json.obj fields =>
    match asNat fields "heap_objects", asNat fields "heap_idle_bytes",
        asNat fields "heap_in_use_bytes", asNat fields "heap_released_bytes",
        asNat fields "gc_pause_usec_100", asNat fields "gc_pause_usec_99",
        asNat fields "gc_pause_usec_95", asNat fields "next_gc_bytes",
        asNat fields "gc_total_runs" with
    | some heapObjects, some heapIdleBytes, some heapInUseBytes,
        some heapReleasedBytes, some p100, some p99, some p95,
        some nextGCBytes, some gcTotalRuns =>
      some
        { HeapObjects := heapObjects
          HeapIdleBytes := heapIdleBytes
          HeapInUseBytes := heapInUseBytes
          HeapReleasedBytes := heapReleasedBytes
          GCPauseUsec100 := p100
          GCPauseUsec99 := p99
          GCPauseUsec95 := p95
          NextGCBytes := nextGCBytes
          GCTotalRuns := gcTotalRuns }
    | _, _, _, _, _, _, _, _, _ => none
  | _ => none

instance : IsAntisymm TopicStats topicStatsLt :=
  ⟨fun _ _ h1 h2 => absurd h2 (goStrLt_asymm h1)⟩

instance : IsAntisymm ChannelStats channelStatsLt :=
  ⟨fun _ _ h1 h2 => absurd h2 (goStrLt_asymm h1)⟩

theorem pairwise_lt_of_le_of_nodup {α : Type} (key : α → String)
    {l : List α} (hs : l.Pairwise fun a b => goStrLe (key a) (key b))
    (hn : (l.map key).Nodup) :
    l.Pairwise fun a b => goStrLt (key a) (key b) := by
  have hne : l.Pairwise fun a b => key a ≠ key b := List.pairwise_map.mp hn
  exact (hs.and hne).imp fun h => goStrLt_of_goStrLe_of_ne h.1 h.2

/-- An unordered accumulation sorted by topic name is independent of the
accumulation order, provided topic names are distinct. -/
theorem insertionSort_topic_eq_of_perm {l1 l2 : List TopicStats}
    (hp : l1.Perm l2) (hn : (l1.map TopicStats.TopicName).Nodup) :
    l1.insertionSort topicStatsLe = l2.insertionSort topicStatsLe := by
  have p1 := List.perm_insertionSort topicStatsLe l1
  have p2 := List.perm_insertionSort topicStatsLe l2
  have hp' : (l1.insertionSort topicStatsLe).Perm (l2.insertionSort topicStatsLe) :=
    (p1.trans hp).trans p2.symm
  have hn1 : ((l1.insertionSort topicStatsLe).map TopicStats.TopicName).Nodup :=
    ((p1.map TopicStats.TopicName).nodup_iff).mpr hn
  have hn2 : ((l2.insertionSort topicStatsLe).map TopicStats.TopicName).Nodup :=
    ((hp'.map TopicStats.TopicName).nodup_iff).mp hn1
  exact List.eq_of_perm_of_sorted (r := topicStatsLt) hp'
    (pairwise_lt_of_le_of_nodup TopicStats.TopicName
      (List.sorted_insertionSort topicStatsLe l1) hn1)
    (pairwise_lt_of_le_of_nodup TopicStats.TopicName
      (List.sorted_insertionSort topicStatsLe l2) hn2)

/-- The channel-level analogue of `insertionSort_topic_eq_of_perm`. -/
theorem insertionSort_channel_eq_of_perm {l1 l2 : List ChannelStats}
    (hp : l1.Perm l2) (hn : (l1.map ChannelStats.ChannelName).Nodup) :
    l1.insertionSort channelStatsLe = l2.insertionSort channelStatsLe := by
  have p1 := List.perm_insertionSort channelStatsLe l1
  have p2 := List.perm_insertionSort channelStatsLe l2
  have hp' : (l1.insertionSort channelStatsLe).Perm (l2.insertionSort channelStatsLe) :=
    (p1.trans hp).trans p2.symm
  have hn1 : ((l1.insertionSort channelStatsLe).map ChannelStats.ChannelName).Nodup :=
    ((p1.map ChannelStats.ChannelName).nodup_iff).mpr hn
  have hn2 : ((l2.insertionSort channelStatsLe).map ChannelStats.ChannelName).Nodup :=
    ((hp'.map ChannelStats.ChannelName).nodup_iff).mp hn1
  exact List.eq_of_perm_of_sorted (r := channelStatsLt) hp'
    (pairwise_lt_of_le_of_nodup ChannelStats.ChannelName
      (List.sorted_insertionSort channelStatsLe l1) hn1)
    (pairwise_lt_of_le_of_nodup ChannelStats.ChannelName
      (List.sorted_insertionSort channelStatsLe l2) hn2)

/-- Go map lookup, embedded as `find?` over the iteration order, does not
depend on the iteration order when keys are unique. -/
theorem find?_key_eq_of_perm {α β : Type} [DecidableEq β] (key : α → β) (k : β)
    {l1 l2 : List α} (hp : l1.Perm l2) (hn : (l1.map key).Nodup) :
    l1.find? (fun x => key x == k) = l2.find? (fun x => key x == k) := by
  cases h1 : l1.find? (fun x => key x == k) with
  | none =>
    rw [List.find?_eq_none] at h1
    symm
    rw [List.find?_eq_none]
    intro x hx
    exact h1 x (hp.mem_iff.mpr hx)
  | some a =>
    have ha : a ∈ l1 := List.mem_of_find?_eq_some h1
    have hpa : key a = k := by simpa using List.find?_some h1
    cases h2 : l2.find? (fun x => key x == k) with
    | none =>
      rw [List.find?_eq_none] at h2
      have := h2 a (hp.mem_iff.mp ha)
      simp [hpa] at this
    | some b =>
      have hb : b ∈ l1 := hp.mem_iff.mpr (List.mem_of_find?_eq_some h2)
      have hpb : key b = k := by simpa using List.find?_some h2
      have hab : a = b :=
        List.inj_on_of_nodup_map hn ha hb (hpa.trans hpb.symm)
      rw [hab]

theorem NewTopicStats_TopicName (t : Topic) (chs : List ChannelStats) :
    (NewTopicStats t chs).TopicName = t.name := rfl

theorem NewTopicStats_Channels (t : Topic) (chs : List ChannelStats) :
    (NewTopicStats t chs).Channels = chs := rfl

theorem NewChannelStats_ChannelName (c : Channel) (cls : List ClientStats) :
    (NewChannelStats c cls).ChannelName = c.name := rfl

theorem NewChannelStats_Clients (c : Channel) (cls : List ClientStats) :
    (NewChannelStats c cls).Clients = cls := rfl

/-- The channel selection of the per-topic goroutine only ever picks channels
of the topic's own channel map. -/
theorem selectChannels_subset {t : Topic} {cf : String} {rc : List Channel}
    (h : selectChannels t cf = some rc) : ∀ c ∈ rc, c ∈ t.channelMap := by
  unfold selectChannels at h
  by_cases hcf : cf = ""
  · rw [if_pos hcf] at h
    cases h
    exact fun c hc => hc
  · rw [if_neg hcf] at h
    cases hfind : lookupChannel t.channelMap cf with
    | none => rw [hfind] at h; cases h
    | some val =>
      rw [hfind] at h
      cases h
      intro c hc
      rw [List.mem_singleton.mp hc]
      exact List.mem_of_find?_eq_some hfind

/-- Unfolding of a successful per-topic collection. -/
theorem topicCollector_eq_some {cf : String} {t : Topic} {ts : TopicStats}
    (h : topicCollector cf t = some ts) :
    ∃ rc, selectChannels t cf = some rc ∧ (∀ c ∈ rc, c ∈ t.channelMap) ∧
      ts = NewTopicStats t ((rc.map channelCollector).insertionSort channelStatsLe) := by
  unfold topicCollector at h
  cases hsel : selectChannels t cf with
  | none => rw [hsel] at h; cases h
  | some rc =>
    rw [hsel] at h
    exact ⟨rc, rfl, selectChannels_subset hsel, (Option.some.injEq _ _ ▸ h).symm⟩

/-- The topic selection of `GetStats` only ever picks topics of the broker's
topic map. -/
theorem selectTopics_subset {n : NSQD} {tf : String} {rt : List Topic}
    (h : selectTopics n tf = some rt) : ∀ t ∈ rt, t ∈ n.topicMap := by
  unfold selectTopics at h
  by_cases htf : tf = ""
  · rw [if_pos htf] at h
    cases h
    exact fun t ht => ht
  · rw [if_neg htf] at h
    cases hfind : lookupTopic n.topicMap tf with
    | none => rw [hfind] at h; cases h
    | some val =>
      rw [hfind] at h
      cases h
      intro t ht
      rw [List.mem_singleton.mp ht]
      exact List.mem_of_find?_eq_some hfind

/-- Every element of a `GetStats` result is the collection of some topic of
the broker's topic map. -/
theorem mem_getStats {n : NSQD} {tf cf : String} {ts : TopicStats}
    (h : ts ∈ GetStats n tf cf) :
    ∃ t, t ∈ n.topicMap ∧ topicCollector cf t = some ts := by
  unfold GetStats at h
  cases hsel : selectTopics n tf with
  | none => rw [hsel] at h; cases h
  | some rt =>
    rw [hsel] at h
    unfold collectTopics at h
    rw [List.mem_insertionSort] at h
    obtain ⟨t, ht, hcoll⟩ := List.mem_filterMap.mp h
    exact ⟨t, selectTopics_subset hsel t ht, hcoll⟩

/-- The topic level of any `GetStats` result is sorted by the topic-name
comparator. -/
theorem getStats_topicLevel_sorted (n : NSQD) (tf cf : String) :
    (GetStats n tf cf).Sorted topicStatsLe := by
  unfold GetStats
  split
  · exact List.sorted_nil
  · exact List.sorted_insertionSort topicStatsLe _

/-- The channel level of any `GetStats` result is sorted by the channel-name
comparator. -/
theorem getStats_channelLevel_sorted {n : NSQD} {tf cf : String}
    {ts : TopicStats} (h : ts ∈ GetStats n tf cf) :
    ts.Channels.Sorted channelStatsLe := by
  obtain ⟨t, _, hcoll⟩ := mem_getStats h
  obtain ⟨rc, _, _, hts⟩ := topicCollector_eq_some hcoll
  rw [hts, NewTopicStats_Channels]
  exact List.sorted_insertionSort channelStatsLe _

/-- Every `ChannelStats` of a `GetStats` result is the snapshot of a broker
channel, its `Clients` being the `Stats()` image of that channel's client map
in iteration order. -/
theorem mem_channels_getStats {n : NSQD} {tf cf : String} {ts : TopicStats}
    {cs : ChannelStats} (h : ts ∈ GetStats n tf cf) (hcs : cs ∈ ts.Channels) :
    ∃ t c, t ∈ n.topicMap ∧ c ∈ t.channelMap ∧
      cs = NewChannelStats c (collectClients c) := by
  obtain ⟨t, ht, hcoll⟩ := mem_getStats h
  obtain ⟨rc, _, hsub, hts⟩ := topicCollector_eq_some hcoll
  rw [hts, NewTopicStats_Channels, List.mem_insertionSort] at hcs
  obtain ⟨c, hc, hcc⟩ := List.mem_map.mp hcs
  exact ⟨t, c, ht, hsub c hc, hcc.symm⟩

/-- A client fixture for concrete broker states: everything zero except the
client id. -/
def clientOf (id : String) : Client :=
  ⟨{ ClientID := id, Hostname := "host", Version := "V2",
     RemoteAddress := "127.0.0.1:4150", State := 3, ReadyCount := 0,
     InFlightCount := 0, MessageCount := 0, FinishCount := 0,
     RequeueCount := 0, ConnectTime := 0, SampleRate := 0, Deflate := false,
     Snappy := false, UserAgent := "go-nsq", Authed := false,
     AuthIdentity := "", AuthIdentityURL := "", TLS := false,
     CipherSuite := "", TLSVersion := "", TLSNegotiatedProtocol := "",
     TLSNegotiatedProtocolIsMutual := false }⟩

/-- A channel fixture for concrete broker states. -/
def channelOf (nm : String) (cls : List Client) : Channel :=
  { name := nm, clients := cls, depth := 3, backendDepth := 1,
    inFlightCount := 2, deferredCount := 0, messageCount := 5,
    requeueCount := 0, timeoutCount := 0, paused := false,
    e2eProcessingLatencyResult := none }

/-- A topic fixture for concrete broker states. -/
def topicOf (nm : String) (chs : List Channel) : Topic :=
  { name := nm, channelMap := chs, depth := 7, backendDepth := 2,
    messageCount := 9, paused := false, aggregateE2eResult := none }

/-- A channel whose client map iterates in descending id order. -/
def wChanAlpha : Channel := channelOf "alpha" [clientOf "y", clientOf "x"]

def wChanZeta : Channel := channelOf "zeta" []

def wChanQ : Channel := channelOf "q" []

def wTopicBeta : Topic := topicOf "beta" [wChanZeta, wChanAlpha]

def wTopicAlpha : Topic := topicOf "alpha" [wChanQ]

/-- A broker whose maps iterate out of name order at every level: two topics
in descending order, the channels of `beta` in descending order, and the
clients of channel `alpha` in descending id order. -/
def wBroker : NSQD := ⟨[wTopicBeta, wTopicAlpha]⟩

/-- The `ChannelStats` that `GetStats wBroker` produces for channel
`alpha`. -/
def wCsAlpha : ChannelStats := NewChannelStats wChanAlpha (collectClients wChanAlpha)

/-- The `TopicStats` that `GetStats wBroker "" ""` produces for topic
`beta`. -/
def wTsBeta : TopicStats :=
  NewTopicStats wTopicBeta [wCsAlpha, NewChannelStats wChanZeta []]

/-- C1 counterexample: on a broker whose channel `alpha` holds clients with
ids `y`, `x` in that (map-iteration) order, the `ClientStats` sequences in
the output of `GetStats` are not all ascending by client id: the client level
is never sorted by the code. -/
theorem getStats_client_level_not_sorted :
    ¬ ∀ ts ∈ GetStats wBroker "" "", ∀ cs ∈ ts.Channels,
      cs.Clients.Pairwise fun a b => goStrLe a.ClientID b.ClientID := by
  decide

/-- C1 (amended): the output of `GetStats` is ordered ascending by name at
the topic and channel levels, but at the client level each `Clients` sequence
is the `Stats()` image of the source channel's client map in iteration order,
not sorted. -/
theorem getStats_levels_order (n : NSQD) (tf cf : String) :
    (GetStats n tf cf).Sorted topicStatsLe ∧
    (∀ ts ∈ GetStats n tf cf, ts.Channels.Sorted channelStatsLe) ∧
    (∀ ts ∈ GetStats n tf cf, ∀ cs ∈ ts.Channels,
      ∃ t c, t ∈ n.topicMap ∧ c ∈ t.channelMap ∧
        cs.Clients = collectClients c) :=
  ⟨getStats_topicLevel_sorted n tf cf,
   fun _ h => getStats_channelLevel_sorted h,
   fun _ h cs hcs => by
     obtain ⟨t, c, ht, hc, hcs'⟩ := mem_channels_getStats h hcs
     exact ⟨t, c, ht, hc, by rw [hcs', NewChannelStats_Clients]⟩⟩

theorem getStats_levels_order_witness :
    wTsBeta ∈ GetStats wBroker "" "" ∧ wCsAlpha ∈ wTsBeta.Channels ∧
    ∃ t c, t ∈ wBroker.topicMap ∧ c ∈ t.channelMap ∧
      wCsAlpha.Clients = collectClients c :=
  ⟨by decide, by decide,
   (getStats_levels_order wBroker "" "").2.2 wTsBeta (by decide) wCsAlpha
     (by decide)⟩

/-- C2: every `GetStats` result is non-decreasing by topic name under the
byte-wise comparator at the topic level, and each embedded `Channels`
sequence is non-decreasing by channel name. -/
theorem getStats_sorted_nondecreasing (n : NSQD) (tf cf : String) :
    (GetStats n tf cf).Sorted topicStatsLe ∧
    ∀ ts ∈ GetStats n tf cf, ts.Channels.Sorted channelStatsLe :=
  ⟨getStats_topicLevel_sorted n tf cf, fun _ h => getStats_channelLevel_sorted h⟩

theorem getStats_sorted_nondecreasing_witness :
    (GetStats wBroker "" "").Sorted topicStatsLe ∧
    wTsBeta.Channels.Sorted channelStatsLe :=
  ⟨(getStats_sorted_nondecreasing wBroker "" "").1,
   (getStats_sorted_nondecreasing wBroker "" "").2 wTsBeta (by decide)⟩

/-- A broker state with no topic name restriction: a topic literally named
`""` next to another topic. -/
def cxEmptyName : NSQD := ⟨[topicOf "" [], topicOf "a" []]⟩

/-- If a non-empty topic filter misses, `GetStats` short-circuits to the
empty sequence. -/
theorem selectTopics_none {n : NSQD} {tf : String} (h1 : tf ≠ "")
    (h2 : ∀ t ∈ n.topicMap, t.name ≠ tf) : selectTopics n tf = none := by
  unfold selectTopics
  rw [if_neg h1]
  have hl : lookupTopic n.topicMap tf = none := by
    unfold lookupTopic
    rw [List.find?_eq_none]
    intro t ht
    simpa using h2 t ht
  rw [hl]

/-- C3 counterexample: in a broker whose topic map holds a topic named `""`
and a second topic, the name `""` is present, yet `GetStats "" ""` returns
both topics (the empty filter selects all), not exactly one. -/
theorem getStats_empty_name_not_singleton :
    (∃ tp ∈ cxEmptyName.topicMap, tp.name = "") ∧
    (GetStats cxEmptyName "" "").length ≠ 1 := by
  decide

theorem insertionSort_singleton_topic (a : TopicStats) :
    [a].insertionSort topicStatsLe = [a] := rfl

theorem insertionSort_singleton_channel (a : ChannelStats) :
    [a].insertionSort channelStatsLe = [a] := rfl

/-- The per-topic goroutine with an empty channel filter always produces one
`TopicStats` for its topic. -/
theorem topicCollector_empty_filter (t : Topic) :
    topicCollector "" t =
      some (NewTopicStats t
        ((t.channelMap.map channelCollector).insertionSort channelStatsLe)) := by
  unfold topicCollector selectChannels
  rw [if_pos rfl]

/-- C3 (amended): for every non-empty topic name `t` present in the broker's
topic map, `GetStats t ""` returns exactly one `TopicStats`, and its
`TopicName` equals `t`.  (A topic literally named `""` is excluded: the
filter `""` selects all topics instead.) -/
theorem getStats_named_topic_singleton (n : NSQD) (t : String) (h1 : t ≠ "")
    (h2 : ∃ tp ∈ n.topicMap, tp.name = t) :
    ∃ ts, GetStats n t "" = [ts] ∧ ts.TopicName = t := by
  obtain ⟨val, hval⟩ : ∃ val, lookupTopic n.topicMap t = some val := by
    obtain ⟨tp, htp, hname⟩ := h2
    have : (lookupTopic n.topicMap t).isSome :=
      List.find?_isSome.mpr ⟨tp, htp, by simp [hname]⟩
    exact Option.isSome_iff_exists.mp this
  have hname : val.name = t := by simpa using List.find?_some hval
  have hsel : selectTopics n t = some [val] := by
    unfold selectTopics
    rw [if_neg h1, hval]
  refine ⟨NewTopicStats val
    ((val.channelMap.map channelCollector).insertionSort channelStatsLe),
    ?_, hname⟩
  unfold GetStats
  rw [hsel]
  show (List.filterMap (topicCollector "") [val]).insertionSort topicStatsLe = _
  rw [List.filterMap_cons, topicCollector_empty_filter val]
  simp only [List.filterMap_nil]
  exact insertionSort_singleton_topic _

theorem getStats_named_topic_singleton_witness :
    ("beta" ≠ "" ∧ ∃ tp ∈ wBroker.topicMap, tp.name = "beta") ∧
    ∃ ts, GetStats wBroker "beta" "" = [ts] ∧ ts.TopicName = "beta" :=
  ⟨⟨by decide, by decide⟩,
   getStats_named_topic_singleton wBroker "beta" (by decide) (by decide)⟩

/-- C4: a non-empty topic filter naming no topic of the broker yields the
empty sequence; `GetStats` is a total function, so no error is possible. -/
theorem getStats_absent_topic_empty (n : NSQD) (tf cf : String)
    (h1 : tf ≠ "") (h2 : ∀ t ∈ n.topicMap, t.name ≠ tf) :
    GetStats n tf cf = [] := by
  unfold GetStats
  rw [selectTopics_none h1 h2]

theorem getStats_absent_topic_empty_witness :
    ("nonexistent" ≠ "" ∧ ∀ t ∈ wBroker.topicMap, t.name ≠ "nonexistent") ∧
    GetStats wBroker "nonexistent" "" = [] :=
  ⟨⟨by decide, by decide⟩,
   getStats_absent_topic_empty wBroker "nonexistent" "" (by decide) (by decide)⟩

/-- C5: with a non-empty channel filter, a topic with no channel of that
name contributes no `TopicStats` at all; a topic holding that channel (with
map-unique channel names) contributes exactly that one channel; accordingly
every element of such a `GetStats` result carries exactly one `ChannelStats`,
named by the filter. -/
theorem getStats_channel_filter (cf : String) (h1 : cf ≠ "") :
    (∀ t : Topic, (∀ c ∈ t.channelMap, c.name ≠ cf) →
      topicCollector cf t = none) ∧
    (∀ t : Topic, ∀ c ∈ t.channelMap, c.name = cf →
      (t.channelMap.map Channel.name).Nodup →
      topicCollector cf t =
        some (NewTopicStats t [NewChannelStats c (collectClients c)])) ∧
    (∀ n : NSQD, ∀ tf : String, ∀ ts ∈ GetStats n tf cf,
      ∃ c : Channel, c.name = cf ∧
        ts.Channels = [NewChannelStats c (collectClients c)]) := by
  refine ⟨?_, ?_, ?_⟩
  · intro t hmiss
    have hl : lookupChannel t.channelMap cf = none := by
      unfold lookupChannel
      rw [List.find?_eq_none]
      intro c hc
      simpa using hmiss c hc
    unfold topicCollector selectChannels
    rw [if_neg h1, hl]
  · intro t c hc hname hnodup
    obtain ⟨val, hval⟩ : ∃ val, lookupChannel t.channelMap cf = some val := by
      have : (lookupChannel t.channelMap cf).isSome :=
        List.find?_isSome.mpr ⟨c, hc, by simp [hname]⟩
      exact Option.isSome_iff_exists.mp this
    have hvmem : val ∈ t.channelMap := List.mem_of_find?_eq_some hval
    have hvname : val.name = cf := by simpa using List.find?_some hval
    have hvc : val = c :=
      List.inj_on_of_nodup_map hnodup hvmem hc (hvname.trans hname.symm)
    unfold topicCollector selectChannels
    rw [if_neg h1, hval, hvc]
    exact congrArg some (congrArg (NewTopicStats t)
      (insertionSort_singleton_channel _))
  · intro n tf ts hts
    obtain ⟨t, _, hcoll⟩ := mem_getStats hts
    unfold topicCollector selectChannels at hcoll
    rw [if_neg h1] at hcoll
    cases hl : lookupChannel t.channelMap cf with
    | none => rw [hl] at hcoll; cases hcoll
    | some val =>
      rw [hl] at hcoll
      have hvname : val.name = cf := by simpa using List.find?_some hl
      refine ⟨val, hvname, ?_⟩
      have := congrArg TopicStats.Channels (Option.some.injEq _ _ ▸ hcoll)
      rw [← this, NewTopicStats_Channels]
      exact insertionSort_singleton_channel _

theorem getStats_channel_filter_witness :
    topicCollector "alpha" wTopicBeta =
      some (NewTopicStats wTopicBeta
        [NewChannelStats wChanAlpha (collectClients wChanAlpha)]) ∧
    topicCollector "alpha" wTopicAlpha = none :=
  ⟨(getStats_channel_filter "alpha" (by decide)).2.1 wTopicBeta wChanAlpha
     (by decide) (by decide) (by decide),
   (getStats_channel_filter "alpha" (by decide)).1 wTopicAlpha (by decide)⟩

/-- C6: the percentile function follows the nearest-rank rule with clamped
index and a zero result on an empty sample; on the sorted sample
`[1,2,3,4,5]`, p = 100, 99 and 95 all select index 4 and yield 5. -/
theorem percentile_nearest_rank :
    (∀ (p : Nat) (arr : List Nat), percentile p arr 0 = 0) ∧
    percentile 100 [1, 2, 3, 4, 5] 5 = 5 ∧
    percentile 99 [1, 2, 3, 4, 5] 5 = 5 ∧
    percentile 95 [1, 2, 3, 4, 5] 5 = 5 ∧
    (∀ (p : Nat) (arr : List Nat) (n : Nat), n ≠ 0 →
      percentile p arr n =
        arr.getD (min ((p * n + 99) / 100 - 1) (n - 1)) 0) := by
  refine ⟨fun p arr => rfl, by decide, by decide, by decide, ?_⟩
  intro p arr n h
  unfold percentile
  rw [if_neg h]

theorem percentile_nearest_rank_witness :
    (2 : Nat) ≠ 0 ∧
    percentile 97 [4, 7] 2 = [4, 7].getD (min ((97 * 2 + 99) / 100 - 1) 1) 0 :=
  ⟨by decide, percentile_nearest_rank.2.2.2.2 97 [4, 7] 2 (by decide)⟩

instance : IsTotal Nat fun a b => a ≤ b := ⟨Nat.le_total⟩

instance : IsTrans Nat fun a b => a ≤ b := ⟨fun _ _ _ => Nat.le_trans⟩

/-- C7: `getMemStats` takes exactly the first `min(len(PauseNs), NumGC)`
pause values of the runtime's pause buffer, sorts them ascending, and
reports nearest-rank percentiles 100/99/95 of the sorted sample divided by
1000 (nanoseconds to microseconds, truncating), alongside the copied heap
counters. -/
theorem getMemStats_pause_pipeline (ms : RuntimeMemStats) :
    ∃ gp : List Nat,
      gp.Perm (ms.PauseNs.take (min ms.PauseNs.length ms.NumGC)) ∧
      gp.length = min ms.PauseNs.length ms.NumGC ∧
      gp.Sorted (fun a b => a ≤ b) ∧
      getMemStats ms =
        { HeapObjects := ms.HeapObjects
          HeapIdleBytes := ms.HeapIdle
          HeapInUseBytes := ms.HeapInuse
          HeapReleasedBytes := ms.HeapReleased
          GCPauseUsec100 := percentile 100 gp gp.length / 1000
          GCPauseUsec99 := percentile 99 gp gp.length / 1000
          GCPauseUsec95 := percentile 95 gp gp.length / 1000
          NextGCBytes := ms.NextGC
          GCTotalRuns := ms.NumGC } := by
  refine ⟨uint64SliceSort (ms.PauseNs.take (min ms.PauseNs.length ms.NumGC)),
    List.perm_insertionSort _ _, ?_, List.sorted_insertionSort _ _, rfl⟩
  unfold uint64SliceSort
  rw [List.length_insertionSort, List.length_take]
  omega

/-- Topics describing the same broker topic, their channel maps possibly
iterating in different orders (client order fixed). -/
def TopicEquiv (t1 t2 : Topic) : Prop :=
  t1.name = t2.name ∧ t1.channelMap.Perm t2.channelMap ∧
  t1.depth = t2.depth ∧ t1.backendDepth = t2.backendDepth ∧
  t1.messageCount = t2.messageCount ∧ t1.paused = t2.paused ∧
  t1.aggregateE2eResult = t2.aggregateE2eResult

/-- Brokers describing the same underlying state, their topic and channel
maps possibly iterating in different orders (client order fixed). -/
def BrokerEquiv (n1 n2 : NSQD) : Prop :=
  ∃ l, n1.topicMap.Perm l ∧ List.Forall₂ TopicEquiv l n2.topicMap

/-- Channels describing the same broker channel, their client maps possibly
iterating in different orders. -/
def ChannelSame (c1 c2 : Channel) : Prop :=
  c1.name = c2.name ∧ c1.clients.Perm c2.clients ∧ c1.depth = c2.depth ∧
  c1.backendDepth = c2.backendDepth ∧ c1.inFlightCount = c2.inFlightCount ∧
  c1.deferredCount = c2.deferredCount ∧ c1.messageCount = c2.messageCount ∧
  c1.requeueCount = c2.requeueCount ∧ c1.timeoutCount = c2.timeoutCount ∧
  c1.paused = c2.paused ∧
  c1.e2eProcessingLatencyResult = c2.e2eProcessingLatencyResult

/-- Topics describing the same broker topic, with any of the topic's,
channels' or clients' maps possibly iterating in different orders. -/
def TopicSame (t1 t2 : Topic) : Prop :=
  t1.name = t2.name ∧
  (∃ l, t1.channelMap.Perm l ∧ List.Forall₂ ChannelSame l t2.channelMap) ∧
  t1.depth = t2.depth ∧ t1.backendDepth = t2.backendDepth ∧
  t1.messageCount = t2.messageCount ∧ t1.paused = t2.paused ∧
  t1.aggregateE2eResult = t2.aggregateE2eResult

/-- Brokers describing the same underlying state, with every map (topics,
channels and clients) free to iterate in any order. -/
def BrokerSame (n1 n2 : NSQD) : Prop :=
  ∃ l, n1.topicMap.Perm l ∧ List.Forall₂ TopicSame l n2.topicMap

theorem NewTopicStats_congr {t1 t2 : Topic} (h : TopicEquiv t1 t2)
    (chs : List ChannelStats) :
    NewTopicStats t1 chs = NewTopicStats t2 chs := by
  obtain ⟨h1, _, h3, h4, h5, h6, h7⟩ := h
  unfold NewTopicStats
  rw [h1, h3, h4, h5, h6, h7]

/-- The per-topic collection is independent of the channel-map iteration
order when channel names are map-unique. -/
theorem topicCollector_congr (cf : String) {t1 t2 : Topic}
    (h : TopicEquiv t1 t2) (hn : (t1.channelMap.map Channel.name).Nodup) :
    topicCollector cf t1 = topicCollector cf t2 := by
  have hperm := h.2.1
  have hkey : (fun c => (channelCollector c).ChannelName) = Channel.name :=
    funext fun c => rfl
  by_cases hcf : cf = ""
  · subst hcf
    rw [topicCollector_empty_filter, topicCollector_empty_filter]
    have hsort :
        (t1.channelMap.map channelCollector).insertionSort channelStatsLe =
        (t2.channelMap.map channelCollector).insertionSort channelStatsLe := by
      apply insertionSort_channel_eq_of_perm (hperm.map channelCollector)
      rw [List.map_map]
      show (t1.channelMap.map fun c => (channelCollector c).ChannelName).Nodup
      rw [hkey]
      exact hn
    rw [hsort]
    exact congrArg some (NewTopicStats_congr h _)
  · unfold topicCollector selectChannels lookupChannel
    rw [if_neg hcf, if_neg hcf,
      find?_key_eq_of_perm Channel.name cf hperm hn]
    cases hfind : t2.channelMap.find? (fun c => c.name == cf) with
    | none => rfl
    | some val => exact congrArg some (NewTopicStats_congr h _)

/-- The fan-out over equivalent topic lists produces identical collections. -/
theorem filterMap_topicCollector_forall₂ (cf : String) {l1 l2 : List Topic}
    (h : List.Forall₂ TopicEquiv l1 l2)
    (hn : ∀ t ∈ l1, (t.channelMap.map Channel.name).Nodup) :
    l1.filterMap (topicCollector cf) = l2.filterMap (topicCollector cf) := by
  induction h with
  | nil => rfl
  | @cons a b as bs hab _ ih =>
    rw [List.filterMap_cons, List.filterMap_cons,
      topicCollector_congr cf hab (hn a (List.mem_cons_self a as)),
      ih fun t ht => hn t (List.mem_cons_of_mem a ht)]

theorem topicCollector_name {cf : String} {t : Topic} {ts : TopicStats}
    (h : topicCollector cf t = some ts) : ts.TopicName = t.name := by
  obtain ⟨rc, _, _, hts⟩ := topicCollector_eq_some h
  rw [hts, NewTopicStats_TopicName]

theorem filterMap_topicCollector_names_sub (cf : String) (l : List Topic) :
    ∀ x ∈ (l.filterMap (topicCollector cf)).map TopicStats.TopicName,
      x ∈ l.map Topic.name := by
  intro x hx
  obtain ⟨ts, hts, hname⟩ := List.mem_map.mp hx
  obtain ⟨t, ht, hcoll⟩ := List.mem_filterMap.mp hts
  exact List.mem_map.mpr ⟨t, ht, by rw [← hname, topicCollector_name hcoll]⟩

/-- Map-unique topic names survive the fan-out: the collected `TopicStats`
carry distinct topic names. -/
theorem filterMap_topicCollector_names_nodup (cf : String) :
    ∀ l : List Topic, (l.map Topic.name).Nodup →
      ((l.filterMap (topicCollector cf)).map TopicStats.TopicName).Nodup := by
  intro l
  induction l with
  | nil => intro _; simp
  | cons t rest ih =>
    intro h
    rw [List.map_cons, List.nodup_cons] at h
    rw [List.filterMap_cons]
    cases hcoll : topicCollector cf t with
    | none => exact ih h.2
    | some ts =>
      rw [List.map_cons, List.nodup_cons]
      refine ⟨fun hmem => ?_, ih h.2⟩
      have hsub := filterMap_topicCollector_names_sub cf rest _ hmem
      rw [topicCollector_name hcoll] at hsub
      exact h.1 hsub

/-- Go map lookup over `Forall₂`-equivalent topic lists finds equivalent
topics (or misses in both). -/
theorem lookupTopic_forall₂ (tf : String) {l1 l2 : List Topic}
    (h : List.Forall₂ TopicEquiv l1 l2) :
    (lookupTopic l1 tf = none ∧ lookupTopic l2 tf = none) ∨
    (∃ v1 v2, lookupTopic l1 tf = some v1 ∧ v1 ∈ l1 ∧
      lookupTopic l2 tf = some v2 ∧ TopicEquiv v1 v2) := by
  induction h with
  | nil => exact Or.inl ⟨rfl, rfl⟩
  | @cons a b as bs hab _ ih =>
    unfold lookupTopic at ih ⊢
    cases hcond : (a.name == tf) with
    | true =>
      right
      have hbcond : (b.name == tf) = true := by rw [← hab.1]; exact hcond
      exact ⟨a, b, List.find?_cons_of_pos _ hcond, List.mem_cons_self a as,
        List.find?_cons_of_pos _ hbcond, hab⟩
    | false =>
      have hbcond : (b.name == tf) = false := by rw [← hab.1]; exact hcond
      rw [List.find?_cons_of_neg _ (by simp [hcond]),
        List.find?_cons_of_neg _ (by simp [hbcond])]
      rcases ih with hnone | ⟨v1, v2, h1, hm, h2, hv⟩
      · exact Or.inl hnone
      · exact Or.inr ⟨v1, v2, h1, List.mem_cons_of_mem a hm, h2, hv⟩

/-- `GetStats` with the all-selecting topic filter. -/
theorem getStats_all (n : NSQD) (cf : String) :
    GetStats n "" cf =
      (n.topicMap.filterMap (topicCollector cf)).insertionSort topicStatsLe := by
  unfold GetStats selectTopics collectTopics
  rw [if_pos rfl]

/-- `GetStats` with a non-empty topic filter, expressed through the map
lookup. -/
theorem getStats_filter_eq (n : NSQD) {tf : String} (cf : String)
    (h1 : tf ≠ "") :
    GetStats n tf cf =
      match lookupTopic n.topicMap tf with
      | none => []
      | some val =>
        (List.filterMap (topicCollector cf) [val]).insertionSort topicStatsLe := by
  unfold GetStats selectTopics collectTopics
  rw [if_neg h1]
  cases lookupTopic n.topicMap tf <;> rfl

/-- The topic list selected by any filter keeps map-unique names. -/
theorem selectTopics_names_nodup {n : NSQD} {tf : String} {rt : List Topic}
    (h : selectTopics n tf = some rt) (hn : (n.topicMap.map Topic.name).Nodup) :
    (rt.map Topic.name).Nodup := by
  unfold selectTopics at h
  by_cases htf : tf = ""
  · rw [if_pos htf] at h
    cases h
    exact hn
  · rw [if_neg htf] at h
    cases hfind : lookupTopic n.topicMap tf with
    | none => rw [hfind] at h; cases h
    | some val =>
      rw [hfind] at h
      cases h
      simp

/-- Two embeddings of one broker differing only in the iteration order of a
client map. -/
def cxClientsA : NSQD :=
  ⟨[topicOf "t" [channelOf "c" [clientOf "a", clientOf "b"]]]⟩

def cxClientsB : NSQD :=
  ⟨[topicOf "t" [channelOf "c" [clientOf "b", clientOf "a"]]]⟩

/-- C8 counterexample: the two states embed the same underlying broker
(equal up to map iteration order at every level, clients included), yet
`GetStats` returns different sequences, because the client level is never
sorted. -/
theorem getStats_sensitive_to_client_order :
    BrokerSame cxClientsA cxClientsB ∧
    GetStats cxClientsA "" "" ≠ GetStats cxClientsB "" "" := by
  constructor
  · refine ⟨cxClientsA.topicMap, List.Perm.refl _,
      List.Forall₂.cons ⟨rfl, ⟨[channelOf "c" [clientOf "a", clientOf "b"]],
        List.Perm.refl _,
        List.Forall₂.cons ⟨rfl, List.Perm.swap (clientOf "b") (clientOf "a") [],
          rfl, rfl, rfl, rfl, rfl, rfl, rfl, rfl, rfl⟩ List.Forall₂.nil⟩,
        rfl, rfl, rfl, rfl, rfl⟩ List.Forall₂.nil⟩
  · decide

/-- C8 (amended): for a fixed underlying broker state with map-unique topic
and channel names, the `GetStats` output is independent of the iteration
order of the topic and channel maps and of the order in which the concurrent
per-topic tasks append their results; it does depend on the iteration order
of the client maps, which is preserved unsorted in the output. -/
theorem getStats_deterministic (n1 n2 : NSQD) (tf cf : String)
    (heq : BrokerEquiv n1 n2)
    (hnt : (n1.topicMap.map Topic.name).Nodup)
    (hnc : ∀ t ∈ n1.topicMap, (t.channelMap.map Channel.name).Nodup) :
    GetStats n1 tf cf = GetStats n2 tf cf ∧
    ∀ (acc : List TopicStats) (rt : List Topic),
      selectTopics n1 tf = some rt →
      acc.Perm (rt.filterMap (topicCollector cf)) →
      acc.insertionSort topicStatsLe = GetStats n1 tf cf := by
  obtain ⟨l, hperm, hf⟩ := heq
  have hnl : (l.map Topic.name).Nodup :=
    ((hperm.map Topic.name).nodup_iff).mp hnt
  have hncl : ∀ t ∈ l, (t.channelMap.map Channel.name).Nodup :=
    fun t ht => hnc t (hperm.mem_iff.mpr ht)
  constructor
  · by_cases htf : tf = ""
    · subst htf
      rw [getStats_all, getStats_all]
      have heql : l.filterMap (topicCollector cf) =
          n2.topicMap.filterMap (topicCollector cf) :=
        filterMap_topicCollector_forall₂ cf hf hncl
      have hp : (n1.topicMap.filterMap (topicCollector cf)).Perm
          (n2.topicMap.filterMap (topicCollector cf)) :=
        heql ▸ hperm.filterMap (topicCollector cf)
      exact insertionSort_topic_eq_of_perm hp
        (filterMap_topicCollector_names_nodup cf n1.topicMap hnt)
    · rw [getStats_filter_eq n1 cf htf, getStats_filter_eq n2 cf htf]
      have hl1 : lookupTopic n1.topicMap tf = lookupTopic l tf :=
        find?_key_eq_of_perm Topic.name tf hperm hnt
      rcases lookupTopic_forall₂ tf hf with ⟨ha, hb⟩ | ⟨v1, v2, h1, hm, h2, hv⟩
      · rw [hl1, ha, hb]
      · rw [hl1, h1, h2]
        show (List.filterMap (topicCollector cf) [v1]).insertionSort topicStatsLe =
          (List.filterMap (topicCollector cf) [v2]).insertionSort topicStatsLe
        rw [List.filterMap_cons, List.filterMap_cons,
          topicCollector_congr cf hv (hncl v1 hm)]
  · intro acc rt hsel hpacc
    have hout : GetStats n1 tf cf =
        (rt.filterMap (topicCollector cf)).insertionSort topicStatsLe := by
      unfold GetStats
      rw [hsel]
      rfl
    rw [hout]
    apply insertionSort_topic_eq_of_perm hpacc
    have hnrt := selectTopics_names_nodup hsel hnt
    exact ((hpacc.map TopicStats.TopicName).nodup_iff).mpr
      (filterMap_topicCollector_names_nodup cf rt hnrt)

/-- A permutation of `wBroker` at the topic and channel levels, clients
untouched. -/
def wBrokerPerm : NSQD := ⟨[wTopicAlpha, topicOf "beta" [wChanAlpha, wChanZeta]]⟩

theorem getStats_deterministic_witness :
    GetStats wBroker "" "" = GetStats wBrokerPerm "" "" ∧
    [wTsBeta, NewTopicStats wTopicAlpha
        [NewChannelStats wChanQ (collectClients wChanQ)]].insertionSort
      topicStatsLe = GetStats wBroker "" "" :=
  ⟨(getStats_deterministic wBroker wBrokerPerm "" ""
      ⟨[wTopicAlpha, wTopicBeta],
        List.Perm.swap wTopicAlpha wTopicBeta [],
        List.Forall₂.cons ⟨rfl, List.Perm.refl _, rfl, rfl, rfl, rfl, rfl⟩
          (List.Forall₂.cons ⟨rfl, List.Perm.swap wChanAlpha wChanZeta [],
            rfl, rfl, rfl, rfl, rfl⟩ List.Forall₂.nil)⟩
      (by decide) (by decide)).1,
   (getStats_deterministic wBroker wBrokerPerm "" ""
      ⟨[wTopicAlpha, wTopicBeta],
        List.Perm.swap wTopicAlpha wTopicBeta [],
        List.Forall₂.cons ⟨rfl, List.Perm.refl _, rfl, rfl, rfl, rfl, rfl⟩
          (List.Forall₂.cons ⟨rfl, List.Perm.swap wChanAlpha wChanZeta [],
            rfl, rfl, rfl, rfl, rfl⟩ List.Forall₂.nil)⟩
      (by decide) (by decide)).2
     [wTsBeta, NewTopicStats wTopicAlpha
        [NewChannelStats wChanQ (collectClients wChanQ)]]
     wBroker.topicMap rfl (by decide)⟩

theorem decode_encode_memStats (m : memStats) :
    decodeMemStats (memStats.encode m) = some m := rfl

theorem decode_encode_clientStats (c : ClientStats) :
    decodeClientStats (ClientStats.encode c) = some c := by
  obtain ⟨cid, hnm, vv, ra, st, rc, ifc, mc, fc, rqc, ct, sr, df, sn, ua,
    au, ai, aiu, tl, csu, tv, tnp, tm⟩ := c
  cases au <;> by_cases hai : ai = "" <;> by_cases haiu : aiu = "" <;>
    simp only [ClientStats.encode, hai, haiu, if_true, if_false, ite_true,
      ite_false, if_neg, if_pos] <;>
    rfl

theorem decodeArray_map {α : Type} (dec : Json → Option α) (enc : α → Json)
    (h : ∀ a, dec (enc a) = some a) :
    ∀ l : List α, decodeArray dec (l.map enc) = some l
  | [] => rfl
  | a :: l => by
    rw [List.map_cons]
    unfold decodeArray
    rw [h a, decodeArray_map dec enc h l]

theorem decode_encode_channelStats (s : ChannelStats) :
    decodeChannelStats (ChannelStats.encode s) = some s := by
  obtain ⟨nm, d, bd, ifc, dfc, mc, rqc, tc, cls, p, e2e⟩ := s
  have harr : decodeArray decodeClientStats (cls.map ClientStats.encode) =
      some cls := decodeArray_map _ _ decode_encode_clientStats cls
  cases e2e <;>
    simp only [ChannelStats.encode, decodeChannelStats, decodeChannelCounters,
      asStr, asInt, asNat, asBool, asQuantile, asArray, jsonLookup,
      encodeQuantile, harr, String.reduceEq, reduceIte]

theorem decode_encode_topicStats (s : TopicStats) :
    decodeTopicStats (TopicStats.encode s) = some s := by
  obtain ⟨nm, chs, d, bd, mc, p, e2e⟩ := s
  have harr : decodeArray decodeChannelStats (chs.map ChannelStats.encode) =
      some chs := decodeArray_map _ _ decode_encode_channelStats chs
  cases e2e <;>
    simp only [TopicStats.encode, decodeTopicStats, asStr, asInt, asNat,
      asBool, asQuantile, asArray, jsonLookup, encodeQuantile, harr,
      String.reduceEq, reduceIte]

/-- The 23 `ClientStats` field names of the exposed-interface contract, in
declaration order. -/
def clientFieldsFull : List String :=
  ["client_id", "hostname", "version", "remote_address", "state",
   "ready_count", "in_flight_count", "message_count", "finish_count",
   "requeue_count", "connect_ts", "sample_rate", "deflate", "snappy",
   "user_agent", "authed", "auth_identity", "auth_identity_url", "tls",
   "tls_cipher_suite", "tls_version", "tls_negotiated_protocol",
   "tls_negotiated_protocol_is_mutual"]

/-- The field names a serialized `ClientStats` actually carries: the three
`omitempty` fields appear only at non-zero values. -/
theorem clientStats_fieldNames (c : ClientStats) :
    (ClientStats.encode c).fieldNames =
      ["client_id", "hostname", "version", "remote_address", "state",
       "ready_count", "in_flight_count", "message_count", "finish_count",
       "requeue_count", "connect_ts", "sample_rate", "deflate", "snappy",
       "user_agent"] ++
      (if c.Authed = true then ["authed"] else []) ++
      (if c.AuthIdentity = "" then [] else ["auth_identity"]) ++
      (if c.AuthIdentityURL = "" then [] else ["auth_identity_url"]) ++
      ["tls", "tls_cipher_suite", "tls_version", "tls_negotiated_protocol",
       "tls_negotiated_protocol_is_mutual"] := by
  obtain ⟨cid, hnm, vv, ra, st, rc, ifc, mc, fc, rqc, ct, sr, df, sn, ua,
    au, ai, aiu, tl, csu, tv, tnp, tm⟩ := c
  cases au <;> by_cases hai : ai = "" <;> by_cases haiu : aiu = "" <;>
    simp [ClientStats.encode, Json.fieldNames, hai, haiu]

/-- C9 counterexample: a `ClientStats` with zero-valued `authed`,
`auth_identity` and `auth_identity_url` serializes without those keys, so
its serialization does not carry exactly the 23 listed field names. -/
theorem clientStats_fieldNames_not_full :
    (ClientStats.encode (clientOf "c1").stats).fieldNames ≠
      clientFieldsFull := by
  decide

/-- C9 (amended): serializing a `TopicStats`, `ChannelStats` or `memStats`
value produces exactly the JSON field names of the exposed-interface
contract, in declaration order; a `ClientStats` produces those names except
that each of the three `omitempty` fields is dropped at its zero value; and
deserializing any such serialization reproduces every field exactly. -/
theorem json_roundtrip_contract :
    (∀ s : TopicStats, (TopicStats.encode s).fieldNames =
      ["topic_name", "channels", "depth", "backend_depth", "message_count",
       "paused", "e2e_processing_latency"]) ∧
    (∀ s : ChannelStats, (ChannelStats.encode s).fieldNames =
      ["channel_name", "depth", "backend_depth", "in_flight_count",
       "deferred_count", "message_count", "requeue_count", "timeout_count",
       "clients", "paused", "e2e_processing_latency"]) ∧
    (∀ m : memStats, (memStats.encode m).fieldNames =
      ["heap_objects", "heap_idle_bytes", "heap_in_use_bytes",
       "heap_released_bytes", "gc_pause_usec_100", "gc_pause_usec_99",
       "gc_pause_usec_95", "next_gc_bytes", "gc_total_runs"]) ∧
    (∀ c : ClientStats, (ClientStats.encode c).fieldNames =
      ["client_id", "hostname", "version", "remote_address", "state",
       "ready_count", "in_flight_count", "message_count", "finish_count",
       "requeue_count", "connect_ts", "sample_rate", "deflate", "snappy",
       "user_agent"] ++
      (if c.Authed = true then ["authed"] else []) ++
      (if c.AuthIdentity = "" then [] else ["auth_identity"]) ++
      (if c.AuthIdentityURL = "" then [] else ["auth_identity_url"]) ++
      ["tls", "tls_cipher_suite", "tls_version", "tls_negotiated_protocol",
       "tls_negotiated_protocol_is_mutual"]) ∧
    (∀ c : ClientStats, decodeClientStats (ClientStats.encode c) = some c) ∧
    (∀ s : ChannelStats, decodeChannelStats (ChannelStats.encode s) = some s) ∧
    (∀ s : TopicStats, decodeTopicStats (TopicStats.encode s) = some s) ∧
    (∀ m : memStats, decodeMemStats (memStats.encode m) = some m) :=
  ⟨fun _ => rfl, fun _ => rfl, fun _ => rfl, clientStats_fieldNames,
   decode_encode_clientStats, decode_encode_channelStats,
   decode_encode_topicStats, decode_encode_memStats⟩

/-- C10: the `omitempty` fields `authed`, `auth_identity` and
`auth_identity_url` appear in a serialized `ClientStats` exactly when their
value is non-zero, while every other `ClientStats` field is always
emitted. -/
theorem clientStats_omitempty_fields (c : ClientStats) :
    ("authed" ∈ (ClientStats.encode c).fieldNames ↔ c.Authed = true) ∧
    ("auth_identity" ∈ (ClientStats.encode c).fieldNames ↔
      c.AuthIdentity ≠ "") ∧
    ("auth_identity_url" ∈ (ClientStats.encode c).fieldNames ↔
      c.AuthIdentityURL ≠ "") ∧
    (∀ nm ∈ clientFieldsFull,
      nm ∉ (["authed", "auth_identity", "auth_identity_url"] : List String) →
      nm ∈ (ClientStats.encode c).fieldNames) := by
  by_cases hau : c.Authed = true <;> by_cases hai : c.AuthIdentity = "" <;>
    by_cases haiu : c.AuthIdentityURL = "" <;>
    simp [clientStats_fieldNames, clientFieldsFull, hau, hai, haiu]

theorem clientStats_omitempty_fields_witness :
    ("authed" ∈ (ClientStats.encode (clientOf "c2").stats).fieldNames ↔
      (clientOf "c2").stats.Authed = true) ∧
    "client_id" ∈ (ClientStats.encode (clientOf "c2").stats).fieldNames :=
  ⟨(clientStats_omitempty_fields (clientOf "c2").stats).1,
   (clientStats_omitempty_fields (clientOf "c2").stats).2.2.2 "client_id"
     (by decide) (by decide)⟩

end NSQDStats
